import Mathlib

/-!
Shallow embedding of the `web-crawler-go` repository (`main.go`) and proofs
about its crawl frontier, visited-set, robots filter, fetcher retry loop,
link extraction and crawl loop.

Strings are modelled by Lean `String`; Go byte-level operations on strings
(`strings.HasPrefix`, `strings.Contains`, `strings.TrimSuffix`, FNV hashing
of the UTF-8 bytes) are modelled on the character/byte sequences of the
strings, which agrees with Go for all well-formed UTF-8 input.
Go `int` fields are modelled by `Int`; Go `uint64` arithmetic is `Nat`
arithmetic reduced `% 2 ^ 64`.
-/

set_option maxRecDepth 10000

namespace WebCrawler

/-- UTF-8 encoding of one character, as the list of its byte values.
This is the byte sequence Go iterates over when hashing a string. -/
def utf8Bytes (c : Char) : List Nat :=
  let n := c.toNat
  if n < 0x80 then [n]
  else if n < 0x800 then [0xC0 ||| (n >>> 6), 0x80 ||| (n &&& 0x3F)]
  else if n < 0x10000 then
    [0xE0 ||| (n >>> 12), 0x80 ||| ((n >>> 6) &&& 0x3F), 0x80 ||| (n &&& 0x3F)]
  else
    [0xF0 ||| (n >>> 18), 0x80 ||| ((n >>> 12) &&& 0x3F), 0x80 ||| ((n >>> 6) &&& 0x3F),
      0x80 ||| (n &&& 0x3F)]

/-- Byte sequence of a string (its UTF-8 encoding), as `Nat` values. -/
def strBytes (s : String) : List Nat :=
  s.data.flatMap utf8Bytes

/-- FNV-1a 64-bit offset basis (Go `hash/fnv`, `New64a`). -/
def fnvOffset : Nat := 14695981039346656037

/-- FNV-1a 64-bit prime (Go `hash/fnv`). -/
def fnvPrime : Nat := 1099511628211

/-- Embedding of `hashUrl` (main.go:78-82): the 64-bit FNV-1a hash of the
URL's bytes, `h.Write([]byte(url)); h.Sum64()`. -/
def hashUrl (url : String) : Nat :=
  (strBytes url).foldl (fun h b => ((h ^^^ b) * fnvPrime) % 2 ^ 64) fnvOffset

/-- Go `strings.HasPrefix s pre` on the character sequences. -/
def hasPre (s pre : String) : Bool :=
  decide (pre.data <+: s.data)

/-- Go `strings.Contains s pat` (substring containment) on the character
sequences. -/
def strContains (s pat : String) : Bool :=
  decide (pat.data <:+: s.data)

/-- Go `strings.TrimSuffix s suf`: drops `suf` from the end of `s` when it is
a suffix, otherwise returns `s` unchanged. -/
def trimSuffixStr (s suf : String) : String :=
  if suf.data <:+ s.data then ⟨s.data.take (s.data.length - suf.data.length)⟩ else s

/-- Embedding of the package-level `host` variable (main.go:18). -/
def host : String := "https://www.sjsu.edu/"

/-- Embedding of `Queue` (main.go:35-40): the Frontier. The mutex only
serialises access and has no sequential meaning, so it is not modelled. -/
structure Queue where
  totalQueued : Int
  number : Int
  elements : List String
deriving Repr, DecidableEq

/-- Embedding of `Queue.enqueue` (main.go:48-54): appends at the tail and
increments both counters. -/
def Queue.enqueue (q : Queue) (url : String) : Queue :=
  { totalQueued := q.totalQueued + 1, number := q.number + 1, elements := q.elements ++ [url] }

/-- Result of `Queue.dequeue`. The Go body reads `q.elements[0]`
unconditionally; on an empty slice this is a runtime panic that crashes the
process, which `crash` models. There is no error value in the source. -/
inductive DequeueResult where
  | ok (url : String) (rest : Queue)
  | crash (msg : String)
deriving Repr, DecidableEq

/-- Embedding of `Queue.dequeue` (main.go:56-63): returns the head and the
queue with the head removed and `number` decremented; on an empty backing
slice, `q.elements[0]` panics at runtime. -/
def Queue.dequeue (q : Queue) : DequeueResult :=
  match q.elements with
  | [] => DequeueResult.crash "runtime error: index out of range [0] with length 0"
  | u :: rest =>
    DequeueResult.ok u { totalQueued := q.totalQueued, number := q.number - 1, elements := rest }

/-- Embedding of `Queue.size` (main.go:65-69): returns the `number` field. -/
def Queue.size (q : Queue) : Int :=
  q.number

/-- The queue value `main` starts from (main.go:218). -/
def initialQueue : Queue :=
  { totalQueued := 0, number := 0, elements := [] }

/-- Embedding of `CrawledSet` (main.go:42-46): the VisitedSet. The Go field
`data map[uint64]bool` is modelled by its set of keys (every stored value is
`true`); `number` is the separately maintained count. -/
structure CrawledSet where
  data : List Nat
  number : Int
deriving Repr, DecidableEq

/-- Embedding of `CrawledSet.add` (main.go:71-76): stores the fingerprint
`hashUrl url` as a map key (a second store of the same key leaves the map
unchanged) and increments `number` unconditionally. -/
def CrawledSet.add (c : CrawledSet) (url : String) : CrawledSet :=
  { data := if c.data.contains (hashUrl url) then c.data else hashUrl url :: c.data,
    number := c.number + 1 }

/-- Embedding of `CrawledSet.contains` (main.go:84-88): map lookup of the
fingerprint, defaulting to `false`. -/
def CrawledSet.contains (c : CrawledSet) (url : String) : Bool :=
  c.data.contains (hashUrl url)

/-- Embedding of `CrawledSet.size` (main.go:90-94): returns `number`. -/
def CrawledSet.size (c : CrawledSet) : Int :=
  c.number

/-- The crawled set `main` starts from (main.go:220): empty map, zero count. -/
def emptyCrawled : CrawledSet :=
  { data := [], number := 0 }

/-- Embedding of `isAllowed` (main.go:126-133), parameterised by the
package-level `disabledLinks` list: scans the disallow list and returns
`false` as soon as one entry occurs in `url` as a substring. -/
def isAllowed (disabledLinks : List String) (url : String) : Bool :=
  match disabledLinks with
  | [] => true
  | d :: rest => if strContains url d then false else isAllowed rest url

/-- Embedding of `writeToFile` (main.go:141-154). The file is modelled as
`Option String`: `none` when `result.txt` does not exist, `some c` when it
exists with contents `c`. The Go call opens with `O_APPEND|O_WRONLY` and no
`O_CREATE`, so when the file does not exist the open fails, the error is only
logged, the subsequent `Fprintf` on the nil file also fails and is only
logged, and nothing is written (the file is never created). When the file
exists, exactly the record block is appended. -/
def writeToFile (title currUrl : String) (resultTxt : Option String) : Option String :=
  match resultTxt with
  | none => none
  | some contents =>
    some (contents ++ "\x7b\n\ttitle: " ++ title ++ ",\n\turl: " ++ currUrl ++ "\n\x7d")

/-- A parsed HTML document as the crawler consumes it: the `href` attributes
of its `a[href]` elements, in document order, and its `title` text. This is
the "parse(bytes) -> document" capability boundary of the spec. -/
structure Document where
  hrefs : List String
  title : String
deriving Repr, DecidableEq

/-- Outcome of one iteration of the `fetcher` retry loop (main.go:157-184):
`reqErr` models `http.NewRequest` failing (logged, `continue`, no HTTP call
made); `err` models `client.Do` returning a transport error (logged,
`continue`); `resp status parsed` models an HTTP response with the given
status code, `parsed` being the goquery parse of its body (`none` when
parsing fails). -/
inductive DoResult where
  | reqErr
  | err
  | resp (status : Nat) (parsed : Option Document)
deriving Repr, DecidableEq

/-- What `fetcher` delivers on its channel (or does instead of delivering):
`doc d` models `c <- doc` after a 200 response that parses; `noDoc` models
`c <- nil` after all attempts are exhausted; `fatal` models `log.Fatal` when
a 200 body fails to parse (the process exits, nothing is delivered). -/
inductive FetchOutcome where
  | doc (d : Document)
  | noDoc
  | fatal
deriving Repr, DecidableEq

/-- Embedding of the `for i := range 5` retry loop of `fetcher`
(main.go:156-186), from attempt index `i` with `remaining` iterations left.
`attempt` gives the outcome of each iteration's request. Returns what is
delivered on the channel together with the number of HTTP requests
(`client.Do` calls) performed. The `time.Sleep` backoff before retries only
delays execution and is not modelled. -/
def fetcherAux (attempt : Nat → DoResult) : Nat → Nat → FetchOutcome × Nat
  | _, 0 => (FetchOutcome.noDoc, 0)
  | i, remaining + 1 =>
    match attempt i with
    | DoResult.reqErr => fetcherAux attempt (i + 1) remaining
    | DoResult.err =>
      let p := fetcherAux attempt (i + 1) remaining
      (p.1, p.2 + 1)
    | DoResult.resp status parsed =>
      if status = 200 then
        match parsed with
        | some d => (FetchOutcome.doc d, 1)
        | none => (FetchOutcome.fatal, 1)
      else
        let p := fetcherAux attempt (i + 1) remaining
        (p.1, p.2 + 1)

/-- Embedding of `fetcher` (main.go:156-186): up to 5 attempts starting at
attempt index 0. -/
def fetcher (attempt : Nat → DoResult) : FetchOutcome × Nat :=
  fetcherAux attempt 0 5

/-- An attempt whose response makes the retry loop continue: a transport
error or a non-200 status. (`reqErr` also continues the loop but performs no
HTTP request.) -/
def isFailure : DoResult → Bool
  | DoResult.reqErr => false
  | DoResult.err => true
  | DoResult.resp status _ => status != 200

/-- Embedding of the per-href body of `parser`'s `doc.Find("a[href]").Each`
callback (main.go:190-207): returns `some u` when the callback enqueues `u`,
and `none` when the href is dropped. -/
def processHref (disabledLinks : List String) (crawledSet : CrawledSet) (href : String) :
    Option String :=
  if hasPre href "#" || hasPre href "javascript:" || hasPre href "mailto:" then none
  else if hasPre href "/" then
    let abs := trimSuffixStr host "/" ++ href
    if hasPre abs host && isAllowed disabledLinks abs && !(crawledSet.contains abs) then some abs
    else none
  else if !(hasPre href "http") then none
  else if hasPre href host && isAllowed disabledLinks href && !(crawledSet.contains href) then
    some href
  else none

/-- Embedding of `parser` (main.go:188-213): folds the admission test over
the document's hrefs in order, enqueuing each admitted URL, then writes the
page's title and `currUrl` to `result.txt`. Returns the updated queue and the
updated file. The crawled set is only read, never written, by `parser`. -/
def parser (disabledLinks : List String) (doc : Document) (queue : Queue) (currUrl : String)
    (crawledSet : CrawledSet) (resultTxt : Option String) : Queue × Option String :=
  (doc.hrefs.foldl
    (fun q href =>
      match processHref disabledLinks crawledSet href with
      | some u => q.enqueue u
      | none => q)
    queue,
   writeToFile doc.title currUrl resultTxt)

/-- State of `main`'s crawl: the frontier, the visited set, the output file,
and the list of URLs handed to `fetcher`, in order. -/
structure CrawlState where
  queue : Queue
  crawled : CrawledSet
  resultTxt : Option String
  fetched : List String
deriving Repr, DecidableEq

/-- One iteration of the Draining loop body (main.go:246-257): dequeue, mark
visited, fetch, and on a non-nil document run `parser`. `web` maps a URL to
the document `fetcher` delivers for it (`none` when `fetcher` delivers nil).
Returns `none` when `dequeue` panics (the process crashes). This models the
schedule in which each dispatched `parser` goroutine completes before the
next loop iteration reads shared state. -/
def crawlIter (disabledLinks : List String) (web : String → Option Document) (s : CrawlState) :
    Option CrawlState :=
  match s.queue.dequeue with
  | DequeueResult.crash _ => none
  | DequeueResult.ok url q1 =>
    let c1 := s.crawled.add url
    let fetched1 := s.fetched ++ [url]
    match web url with
    | none => some { queue := q1, crawled := c1, resultTxt := s.resultTxt, fetched := fetched1 }
    | some doc =>
      some { queue := (parser disabledLinks doc q1 url c1 s.resultTxt).1, crawled := c1,
             resultTxt := (parser disabledLinks doc q1 url c1 s.resultTxt).2,
             fetched := fetched1 }

/-- Fuel-indexed runner for the Draining loop. Each executed iteration
increments `crawled.number` by exactly one, so running with fuel
`(500 - s.crawled.size).toNat` is exactly the source loop
`for queue.size() > 0 && crawled.size() < 500` (main.go:245-258);
`crawlLoop_while_eq` below proves that defining equation. -/
def crawlLoopAux (disabledLinks : List String) (web : String → Option Document) :
    Nat → CrawlState → CrawlState
  | 0, s => s
  | fuel + 1, s =>
    if s.queue.size > 0 ∧ s.crawled.size < 500 then
      match crawlIter disabledLinks web s with
      | some s1 => crawlLoopAux disabledLinks web fuel s1
      | none => s
    else s

/-- Embedding of the Draining loop of `main` (main.go:245-258). -/
def crawlLoop (disabledLinks : List String) (web : String → Option Document)
    (s : CrawlState) : CrawlState :=
  crawlLoopAux disabledLinks web (500 - s.crawled.size).toNat s

/-- Embedding of `main`'s crawl (main.go:217-258): seed the crawled set with
`host`, fetch and parse the seed page, then run the Draining loop. The stats
goroutine only reads sizes and is not modelled; `resultTxt0` is the initial
state of `result.txt`. -/
def runCrawl (disabledLinks : List String) (web : String → Option Document)
    (resultTxt0 : Option String) : CrawlState :=
  let crawled1 := emptyCrawled.add host
  match web host with
  | none =>
    crawlLoop disabledLinks web
      { queue := initialQueue, crawled := crawled1, resultTxt := resultTxt0, fetched := [host] }
  | some doc =>
    crawlLoop disabledLinks web
      { queue := (parser disabledLinks doc initialQueue host crawled1 resultTxt0).1,
        crawled := crawled1,
        resultTxt := (parser disabledLinks doc initialQueue host crawled1 resultTxt0).2,
        fetched := [host] }

/-- Driver for Frontier operation sequences: `enq u` calls `enqueue u`,
`deq` calls `dequeue` and records the returned URL. Returns `none` when a
`dequeue` hits the empty queue (the process would crash). -/
inductive QOp where
  | enq (url : String)
  | deq
deriving Repr, DecidableEq

/-- Run a sequence of queue operations, accumulating dequeued URLs. -/
def runOps : Queue → List String → List QOp → Option (Queue × List String)
  | q, outs, [] => some (q, outs)
  | q, outs, QOp.enq u :: ops => runOps (q.enqueue u) outs ops
  | q, outs, QOp.deq :: ops =>
    match q.dequeue with
    | DequeueResult.ok u q1 => runOps q1 (outs ++ [u]) ops
    | DequeueResult.crash _ => none

/-- The URLs enqueued by a sequence of operations, in order. -/
def enqValues : List QOp → List String
  | [] => []
  | QOp.enq u :: ops => u :: enqValues ops
  | QOp.deq :: ops => enqValues ops

/-- A concrete web for the double-crawl counterexample: the seed page links
to `/u` twice, and `/u` has no links. Both admissions of `/u` happen while
`/u` is still unvisited (marking happens only at dequeue time), so the
Frontier receives two copies. -/
def exWeb : String → Option Document := fun url =>
  if url = "https://www.sjsu.edu/" then some { hrefs := ["/u", "/u"], title := "Seed" }
  else if url = "https://www.sjsu.edu/u" then some { hrefs := [], title := "U" }
  else none

end WebCrawler

namespace WebCrawler

theorem contains_add_self (c : CrawledSet) (u : String) : (c.add u).contains u = true := by
  simp only [CrawledSet.add, CrawledSet.contains]
  split
  · assumption
  · simp

theorem contains_add_mono (c : CrawledSet) (u v : String) (h : c.contains u = true) :
    (c.add v).contains u = true := by
  simp only [CrawledSet.add, CrawledSet.contains] at *
  split
  · exact h
  · have h2 : hashUrl u ∈ c.data := List.mem_of_elem_eq_true h
    simp [List.mem_cons, h2]

theorem contains_foldl_add (us : List String) (c : CrawledSet) (u : String)
    (h : c.contains u = true) : (us.foldl CrawledSet.add c).contains u = true := by
  induction us generalizing c with
  | nil => exact h
  | cons a rest ih => exact ih _ (contains_add_mono c u a h)

theorem contains_add_collision (c : CrawledSet) (u v : String) (h : hashUrl v = hashUrl u) :
    (c.add u).contains v = true := by
  simp only [CrawledSet.add, CrawledSet.contains, h]
  split
  · assumption
  · simp

theorem add_data_of_contains (x : CrawledSet) (u : String) (h : x.contains u = true) :
    (x.add u).data = x.data := by
  simp only [CrawledSet.contains] at h
  have h2 : hashUrl u ∈ x.data := List.mem_of_elem_eq_true h
  simp [CrawledSet.add, h2]

theorem isAllowed_iff (d : List String) (url : String) :
    isAllowed d url = true ↔ ∀ p ∈ d, ¬(p.data <:+: url.data) := by
  induction d with
  | nil => simp [isAllowed]
  | cons a rest ih =>
    by_cases h : a.data <:+: url.data
    · simp [isAllowed, strContains, h]
    · simp [isAllowed, strContains, h, ih]

/-- Claim C4 (amended): `dequeue` on an empty Frontier is a Go runtime
index-out-of-range panic (a crash — the code has no `EmptyFrontier` error
value); when at least one element is present, `dequeue` removes and returns
the head element. -/
theorem claim4_dequeue_amended :
    (∀ q : Queue, q.elements = [] →
      q.dequeue = DequeueResult.crash "runtime error: index out of range [0] with length 0") ∧
    (∀ (q : Queue) (u : String) (rest : List String), q.elements = u :: rest →
      q.dequeue = DequeueResult.ok u
        { totalQueued := q.totalQueued, number := q.number - 1, elements := rest }) := by
  constructor
  · intro q h
    simp [Queue.dequeue, h]
  · intro q u rest h
    simp [Queue.dequeue, h]

/-- Claim C4, counterexample to the claim as stated: on the empty queue that
`main` starts from, `dequeue` does not produce a defined failure result — it
crashes with the runtime panic from evaluating `q.elements[0]` on an empty
slice. -/
theorem claim4_counterexample :
    initialQueue.dequeue =
      DequeueResult.crash "runtime error: index out of range [0] with length 0" := by
  decide

/-- Claim C4, witness: the non-empty case of the amended theorem at a
concrete one-element queue. -/
theorem claim4_witness :
    (initialQueue.enqueue "https://www.sjsu.edu/a").dequeue =
      DequeueResult.ok "https://www.sjsu.edu/a"
        { totalQueued := 1, number := 0, elements := [] } := by
  simpa using
    claim4_dequeue_amended.2 (initialQueue.enqueue "https://www.sjsu.edu/a")
      "https://www.sjsu.edu/a" [] rfl

/-- Claim C5: `isAllowed url` is true iff no collected disallowed path occurs
in `url` as a substring; with disallow list `["/private"]` the two example
URLs split as stated, and with the empty disallow list (as after a robots.txt
load failure) every URL is allowed. -/
theorem claim5_isAllowed :
    (∀ (disabledLinks : List String) (url : String),
      isAllowed disabledLinks url = true ↔ ∀ p ∈ disabledLinks, ¬(p.data <:+: url.data)) ∧
    isAllowed ["/private"] "https://site/private/x" = false ∧
    isAllowed ["/private"] "https://site/public/x" = true ∧
    (∀ url : String, isAllowed [] url = true) :=
  ⟨isAllowed_iff, by decide, by decide, fun _ => rfl⟩

/-- Claim C5, witness: the characterisation applied at a concrete disallow
list and URL, discharging the no-substring hypothesis by computation. -/
theorem claim5_witness : isAllowed ["/private"] "https://site/public/x" = true :=
  (claim5_isAllowed.1 ["/private"] "https://site/public/x").mpr (by decide)

/-- Claim C8: a URL is contained in the visited set immediately after being
added, stays contained after any further sequence of `add` calls (`contains`
and `size` do not mutate), and any URL whose FNV-1a fingerprint collides with
an added URL's fingerprint is also reported as contained. -/
theorem claim8_visited_monotone :
    ∀ (c : CrawledSet) (u : String),
      (c.add u).contains u = true ∧
      (∀ us : List String, (us.foldl CrawledSet.add (c.add u)).contains u = true) ∧
      (∀ v : String, hashUrl v = hashUrl u → (c.add u).contains v = true) :=
  fun c u =>
    ⟨contains_add_self c u,
     fun us => contains_foldl_add us _ u (contains_add_self c u),
     fun v h => contains_add_collision c u v h⟩

/-- Claim C8, witness: containment survives a later `add` of a different URL,
and the collision clause applied at an identical-fingerprint pair. -/
theorem claim8_witness :
    ((["https://www.sjsu.edu/x"].foldl CrawledSet.add
        (emptyCrawled.add "https://www.sjsu.edu/")).contains "https://www.sjsu.edu/" = true) ∧
    (emptyCrawled.add "https://www.sjsu.edu/").contains "https://www.sjsu.edu/" = true :=
  ⟨(claim8_visited_monotone emptyCrawled "https://www.sjsu.edu/").2.1 ["https://www.sjsu.edu/x"],
   (claim8_visited_monotone emptyCrawled "https://www.sjsu.edu/").2.2 "https://www.sjsu.edu/" rfl⟩

/-- Claim C9: `add` increments the count unconditionally — adding the same
URL twice increases `size` by 2 while the stored fingerprint set does not
grow, so starting from the empty set, two `add`s of one URL give `size` 2
with a single stored fingerprint. -/
theorem claim9_add_double_count :
    ∀ (c : CrawledSet) (u : String),
      ((c.add u).add u).number = c.number + 2 ∧
      ((c.add u).add u).data = (c.add u).data ∧
      ((emptyCrawled.add u).add u).size = 2 ∧
      ((emptyCrawled.add u).add u).data.length = 1 := by
  intro c u
  refine ⟨?_, add_data_of_contains _ u (contains_add_self c u), ?_, ?_⟩
  · simp [CrawledSet.add]
    omega
  · simp [CrawledSet.add, CrawledSet.size, emptyCrawled]
  · rw [add_data_of_contains _ u (contains_add_self emptyCrawled u)]
    simp [CrawledSet.add, emptyCrawled]

/-- Claim C10: with `result.txt` absent, `writeToFile` fails and persists
nothing (and never creates the file); with the file present it appends
exactly the brace-delimited record block with no trailing separator; and the
queue produced by `parser` is independent of the file state, so a failed
write never affects the crawl. -/
theorem claim10_writeToFile :
    (∀ title currUrl : String, writeToFile title currUrl none = none) ∧
    (∀ title currUrl contents : String,
      writeToFile title currUrl (some contents) =
        some (contents ++ "\x7b\n\ttitle: " ++ title ++ ",\n\turl: " ++ currUrl ++ "\n\x7d")) ∧
    (∀ (disabledLinks : List String) (doc : Document) (queue : Queue) (currUrl : String)
        (crawledSet : CrawledSet) (f : Option String),
      (parser disabledLinks doc queue currUrl crawledSet f).1 =
        (parser disabledLinks doc queue currUrl crawledSet none).1) :=
  ⟨fun _ _ => rfl, fun _ _ _ => rfl, fun _ _ _ _ _ _ => rfl⟩

end WebCrawler

namespace WebCrawler

theorem fetcherAux_count_le (attempt : Nat → DoResult) :
    ∀ (remaining i : Nat), (fetcherAux attempt i remaining).2 ≤ remaining := by
  intro remaining
  induction remaining with
  | zero => intro i; simp [fetcherAux]
  | succ r ih =>
    intro i
    cases h : attempt i with
    | reqErr =>
      simp only [fetcherAux, h]
      exact Nat.le_succ_of_le (ih (i + 1))
    | err =>
      simp only [fetcherAux, h]
      exact Nat.succ_le_succ (ih (i + 1))
    | resp status parsed =>
      by_cases hs : status = 200
      · subst hs
        cases parsed <;> simp [fetcherAux, h]
      · simp only [fetcherAux, h, if_neg hs]
        exact Nat.succ_le_succ (ih (i + 1))

theorem fetcherAux_success (attempt : Nat → DoResult) :
    ∀ (remaining k i : Nat) (d : Document), k < remaining →
      (∀ j, j < k → isFailure (attempt (i + j)) = true) →
      attempt (i + k) = DoResult.resp 200 (some d) →
      fetcherAux attempt i remaining = (FetchOutcome.doc d, k + 1) := by
  intro remaining
  induction remaining with
  | zero => intro k i d hk _ _; exact absurd hk (Nat.not_lt_zero k)
  | succ r ih =>
    intro k i d hk hfail hsucc
    cases k with
    | zero =>
      simp only [Nat.add_zero] at hsucc
      simp [fetcherAux, hsucc]
    | succ k2 =>
      have h0 : isFailure (attempt i) = true := by
        simpa using hfail 0 (Nat.succ_pos k2)
      have hfail2 : ∀ j, j < k2 → isFailure (attempt (i + 1 + j)) = true := by
        intro j hj
        have h3 := hfail (j + 1) (by omega)
        rw [show i + (j + 1) = i + 1 + j by omega] at h3
        exact h3
      have hsucc2 : attempt (i + 1 + k2) = DoResult.resp 200 (some d) := by
        rw [show i + 1 + k2 = i + (k2 + 1) by omega]
        exact hsucc
      have hrec := ih k2 (i + 1) d (by omega) hfail2 hsucc2
      cases h : attempt i with
      | reqErr => rw [h] at h0; simp [isFailure] at h0
      | err => simp [fetcherAux, h, hrec]
      | resp status parsed =>
        rw [h] at h0
        have hs : status ≠ 200 := by
          simpa [isFailure] using h0
        simp [fetcherAux, h, if_neg hs, hrec]

theorem fetcherAux_allFail (attempt : Nat → DoResult) :
    ∀ (remaining i : Nat),
      (∀ j, j < remaining → isFailure (attempt (i + j)) = true) →
      fetcherAux attempt i remaining = (FetchOutcome.noDoc, remaining) := by
  intro remaining
  induction remaining with
  | zero => intro i _; simp [fetcherAux]
  | succ r ih =>
    intro i hfail
    have h0 : isFailure (attempt i) = true := by
      simpa using hfail 0 (Nat.succ_pos r)
    have hfail2 : ∀ j, j < r → isFailure (attempt (i + 1 + j)) = true := by
      intro j hj
      have h3 := hfail (j + 1) (by omega)
      rw [show i + (j + 1) = i + 1 + j by omega] at h3
      exact h3
    have hrec := ih (i + 1) hfail2
    cases h : attempt i with
    | reqErr => rw [h] at h0; simp [isFailure] at h0
    | err => simp [fetcherAux, h, hrec]
    | resp status parsed =>
      rw [h] at h0
      have hs : status ≠ 200 := by
        simpa [isFailure] using h0
      simp [fetcherAux, h, if_neg hs, hrec]

/-- Claim C2: the fetcher performs at most 5 HTTP requests; on the first
attempt that returns status 200 with a parseable body it delivers the
document immediately, having made exactly `k + 1` requests when the first
`k` attempts were transport errors or non-200 responses (so a 200 on the 3rd
attempt means no 4th request); and when all 5 attempts fail it delivers the
terminal no-document signal (`c <- nil`) having made exactly 5 requests,
raising no error to its caller. -/
theorem claim2_fetcher_retries :
    (∀ attempt : Nat → DoResult, (fetcher attempt).2 ≤ 5) ∧
    (∀ (attempt : Nat → DoResult) (k : Nat) (d : Document), k < 5 →
      (∀ j, j < k → isFailure (attempt j) = true) →
      attempt k = DoResult.resp 200 (some d) →
      fetcher attempt = (FetchOutcome.doc d, k + 1)) ∧
    (∀ attempt : Nat → DoResult,
      (∀ j, j < 5 → isFailure (attempt j) = true) →
      fetcher attempt = (FetchOutcome.noDoc, 5)) := by
  refine ⟨fun attempt => fetcherAux_count_le attempt 5 0, ?_, ?_⟩
  · intro attempt k d hk hfail hsucc
    exact fetcherAux_success attempt 5 k 0 d hk (by simpa using hfail) (by simpa using hsucc)
  · intro attempt hfail
    exact fetcherAux_allFail attempt 5 0 (by simpa using hfail)

/-- Claim C2, witness: a URL answering 503 twice then 200 yields the document
after exactly 3 requests, and a URL always answering 503 yields the
no-document signal after exactly 5 requests. -/
theorem claim2_witness :
    fetcher (fun i => if i < 2 then DoResult.resp 503 none
        else DoResult.resp 200 (some { hrefs := [], title := "T" }))
      = (FetchOutcome.doc { hrefs := [], title := "T" }, 3) ∧
    fetcher (fun _ => DoResult.resp 503 none) = (FetchOutcome.noDoc, 5) :=
  ⟨claim2_fetcher_retries.2.1 _ 2 { hrefs := [], title := "T" } (by decide)
      (by decide) (by decide),
   claim2_fetcher_retries.2.2 _ (by decide)⟩

theorem processHref_some (disabledLinks : List String) (crawledSet : CrawledSet)
    (href u : String) (hsome : processHref disabledLinks crawledSet href = some u) :
    hasPre u host = true ∧ isAllowed disabledLinks u = true ∧
      crawledSet.contains u = false := by
  simp only [processHref] at hsome
  split_ifs at hsome with h1 h2 h3 h4 h5 <;>
    simp only [Option.some.injEq, reduceCtorEq] at hsome
  · rcases hsome with rfl
    simpa [Bool.and_eq_true, Bool.not_eq_true', and_assoc] using h3
  · rcases hsome with rfl
    simpa [Bool.and_eq_true, Bool.not_eq_true', and_assoc] using h5

/-- Claim C3: hrefs starting with `#`, `javascript:` or `mailto:` are never
enqueued; an admitted href starting with `/` is enqueued as the domain root
minus its trailing slash concatenated with the path; an href starting
neither with `/` nor with `http` is dropped; and every URL the extractor
enqueues is prefixed by the fixed crawl domain, satisfies `isAllowed`, and
was not in the visited set at check time. -/
theorem claim3_link_admission :
    ∀ (disabledLinks : List String) (crawledSet : CrawledSet) (href : String),
      ((hasPre href "#" = true ∨ hasPre href "javascript:" = true ∨
          hasPre href "mailto:" = true) →
        processHref disabledLinks crawledSet href = none) ∧
      (∀ u : String, hasPre href "/" = true →
        processHref disabledLinks crawledSet href = some u →
        u = trimSuffixStr host "/" ++ href) ∧
      (hasPre href "/" = false → hasPre href "http" = false →
        processHref disabledLinks crawledSet href = none) ∧
      (∀ u : String, processHref disabledLinks crawledSet href = some u →
        hasPre u host = true ∧ isAllowed disabledLinks u = true ∧
          crawledSet.contains u = false) := by
  intro disabledLinks crawledSet href
  refine ⟨?_, ?_, ?_, processHref_some disabledLinks crawledSet href⟩
  · intro h
    rcases h with h | h | h <;> simp [processHref, h]
  · intro u hslash hsome
    simp only [processHref] at hsome
    split_ifs at hsome with h1 h2
    all_goals simp_all
  · intro hslash hhttp
    simp [processHref, hslash, hhttp]

/-- Claim C3, witness: the fragment and mailto hrefs are dropped, a relative
non-rooted href is dropped, and the admitted rewrite of `/u` on the seed
domain is exactly the domain root plus path, is domain-prefixed, allowed,
and unvisited. -/
theorem claim3_witness :
    processHref [] emptyCrawled "#top" = none ∧
    processHref [] emptyCrawled "mailto:x@y.com" = none ∧
    processHref [] emptyCrawled "foo/bar" = none ∧
    (hasPre "https://www.sjsu.edu/u" host = true ∧
      isAllowed [] "https://www.sjsu.edu/u" = true ∧
      emptyCrawled.contains "https://www.sjsu.edu/u" = false) ∧
    "https://www.sjsu.edu/u" = trimSuffixStr host "/" ++ "/u" :=
  ⟨(claim3_link_admission [] emptyCrawled "#top").1 (Or.inl (by decide)),
   (claim3_link_admission [] emptyCrawled "mailto:x@y.com").1 (Or.inr (Or.inr (by decide))),
   (claim3_link_admission [] emptyCrawled "foo/bar").2.2.1 (by decide) (by decide),
   (claim3_link_admission [] emptyCrawled "/u").2.2.2 "https://www.sjsu.edu/u" (by decide),
   (claim3_link_admission [] emptyCrawled "/u").2.1 "https://www.sjsu.edu/u" (by decide)
     (by decide)⟩

end WebCrawler

namespace WebCrawler

theorem runOps_invariant :
    ∀ (ops : List QOp) (q : Queue) (outs : List String) (q1 : Queue) (outs1 : List String),
      runOps q outs ops = some (q1, outs1) →
      outs1 ++ q1.elements = (outs ++ q.elements) ++ enqValues ops ∧
      q1.totalQueued = q.totalQueued + (enqValues ops).length ∧
      (q.number = q.elements.length → q1.number = q1.elements.length) := by
  intro ops
  induction ops with
  | nil =>
    intro q outs q1 outs1 h
    simp only [runOps, Option.some.injEq, Prod.mk.injEq] at h
    rcases h with ⟨rfl, rfl⟩
    simp [enqValues]
  | cons op rest ih =>
    intro q outs q1 outs1 h
    cases op with
    | enq u =>
      have h2 := ih (q.enqueue u) outs q1 outs1 h
      refine ⟨?_, ?_, ?_⟩
      · rw [h2.1]
        simp [Queue.enqueue, enqValues]
      · rw [h2.2.1]
        simp only [Queue.enqueue, enqValues, List.length_cons]
        push_cast
        ring
      · intro hn
        apply h2.2.2
        simp only [Queue.enqueue, List.length_append, List.length_cons, List.length_nil]
        push_cast
        omega
    | deq =>
      cases hel : q.elements with
      | nil => simp [runOps, Queue.dequeue, hel] at h
      | cons u restEl =>
        simp only [runOps, Queue.dequeue, hel] at h
        have h2 := ih _ (outs ++ [u]) q1 outs1 h
        refine ⟨?_, ?_, ?_⟩
        · rw [h2.1]
          simp [enqValues, hel]
        · rw [h2.2.1]
          simp [enqValues]
        · intro hn
          apply h2.2.2
          show q.number - 1 = (restEl.length : Int)
          simp only [List.length_cons] at hn
          push_cast at hn ⊢
          omega

/-- Claim C7: starting from `main`'s empty queue, any sequence of
`enqueue`/`dequeue` calls in which every `dequeue` finds a non-empty queue
removes elements in first-in-first-out order (the dequeued URLs followed by
the remaining elements are exactly the enqueued URLs, in insertion order),
`totalQueued` equals the number of `enqueue` calls ever made and never
decreases under further operations, and `size` (the `number` field) equals
the number of elements currently present. -/
theorem claim7_frontier_fifo :
    ∀ (ops : List QOp) (q1 : Queue) (outs1 : List String),
      runOps initialQueue [] ops = some (q1, outs1) →
      outs1 ++ q1.elements = enqValues ops ∧
      q1.totalQueued = (enqValues ops).length ∧
      q1.number = q1.elements.length ∧
      (∀ (ops2 : List QOp) (q2 : Queue) (outs2 : List String),
        runOps q1 outs1 ops2 = some (q2, outs2) → q1.totalQueued ≤ q2.totalQueued) := by
  intro ops q1 outs1 h
  have h2 := runOps_invariant ops initialQueue [] q1 outs1 h
  refine ⟨by simpa [initialQueue] using h2.1, by simpa [initialQueue] using h2.2.1,
    h2.2.2 (by simp [initialQueue]), ?_⟩
  intro ops2 q2 outs2 hrun2
  have h3 := runOps_invariant ops2 q1 outs1 q2 outs2 hrun2
  rw [h3.2.1]
  omega

/-- Claim C7, witness: the FIFO and counter equations applied to the run
`enqueue "a"; enqueue "b"; dequeue`, whose successful execution is
discharged by computation. -/
theorem claim7_witness :
    ["a"] ++ ({ totalQueued := 2, number := 1, elements := ["b"] } : Queue).elements =
      enqValues [QOp.enq "a", QOp.enq "b", QOp.deq] ∧
    ({ totalQueued := 2, number := 1, elements := ["b"] } : Queue).totalQueued =
      ((enqValues [QOp.enq "a", QOp.enq "b", QOp.deq]).length : Int) :=
  ⟨(claim7_frontier_fifo [QOp.enq "a", QOp.enq "b", QOp.deq]
      { totalQueued := 2, number := 1, elements := ["b"] } ["a"] rfl).1,
   (claim7_frontier_fifo [QOp.enq "a", QOp.enq "b", QOp.deq]
      { totalQueued := 2, number := 1, elements := ["b"] } ["a"] rfl).2.1⟩

theorem crawlIter_crawled (disabledLinks : List String) (web : String → Option Document)
    (s s1 : CrawlState) (h : crawlIter disabledLinks web s = some s1) :
    s1.crawled.size = s.crawled.size + 1 := by
  cases hd : s.queue.dequeue with
  | crash msg => simp [crawlIter, hd] at h
  | ok url q1 =>
    cases hw : web url with
    | none =>
      simp only [crawlIter, hd, hw, Option.some.injEq] at h
      rw [← h]
      simp [CrawledSet.size, CrawledSet.add]
    | some doc =>
      simp only [crawlIter, hd, hw, Option.some.injEq] at h
      rw [← h]
      simp [CrawledSet.size, CrawledSet.add]

theorem crawlLoopAux_size_le (disabledLinks : List String) (web : String → Option Document) :
    ∀ (fuel : Nat) (s : CrawlState), s.crawled.size + (fuel : Int) ≤ 500 →
      (crawlLoopAux disabledLinks web fuel s).crawled.size ≤ 500 := by
  intro fuel
  induction fuel with
  | zero => intro s h; simpa [crawlLoopAux] using h
  | succ f ih =>
    intro s h
    simp only [crawlLoopAux]
    split
    · cases hit : crawlIter disabledLinks web s with
      | none => simp only [hit]; omega
      | some s1 =>
        simp only [hit]
        apply ih
        have h2 := crawlIter_crawled disabledLinks web s s1 hit
        push_cast at h ⊢
        omega
    · omega

theorem crawlLoop_size_le (disabledLinks : List String) (web : String → Option Document)
    (s : CrawlState) (h : s.crawled.size ≤ 500) :
    (crawlLoop disabledLinks web s).crawled.size ≤ 500 := by
  unfold crawlLoop
  apply crawlLoopAux_size_le
  omega

/-- Defining equation of the Draining-loop model: `crawlLoop` is exactly the
source loop `for queue.size() > 0 && crawled.size() < 500 { body }` — it
returns the state unchanged when the condition fails and otherwise runs one
iteration and repeats. (The fuel in `crawlLoopAux` is only a termination
measure: each iteration grows `crawled.size` by one, so the ceiling bounds
the iteration count.) -/
theorem crawlLoop_while_eq (disabledLinks : List String) (web : String → Option Document)
    (s : CrawlState) :
    crawlLoop disabledLinks web s =
      if s.queue.size > 0 ∧ s.crawled.size < 500 then
        match crawlIter disabledLinks web s with
        | some s1 => crawlLoop disabledLinks web s1
        | none => s
      else s := by
  unfold crawlLoop
  by_cases h : s.queue.size > 0 ∧ s.crawled.size < 500
  · rw [if_pos h]
    have hf : (500 - s.crawled.size).toNat = (500 - s.crawled.size - 1).toNat + 1 := by
      omega
    rw [hf]
    simp only [crawlLoopAux, if_pos h]
    cases hit : crawlIter disabledLinks web s with
    | none => simp
    | some s1 =>
      simp only []
      have h2 := crawlIter_crawled disabledLinks web s s1 hit
      congr 1
      omega
  · rw [if_neg h]
    cases hf : (500 - s.crawled.size).toNat with
    | zero => rfl
    | succ n => simp [crawlLoopAux, h]

/-- Claim C6: the Draining loop runs only while `queue.size() > 0` and
`crawled.size() < 500` (when the condition fails, the loop leaves the state
untouched), and the visited count at crawl completion never exceeds the
ceiling — `crawled.add` is called only in the loop body, never by dispatched
extraction tasks, so the final count is at most 500, which is within the
claim's allowance of ceiling plus the extraction tasks dispatched in the
final iteration. -/
theorem claim6_ceiling :
    (∀ (disabledLinks : List String) (web : String → Option Document) (s : CrawlState),
      ¬(s.queue.size > 0 ∧ s.crawled.size < 500) → crawlLoop disabledLinks web s = s) ∧
    (∀ (disabledLinks : List String) (web : String → Option Document) (s : CrawlState),
      s.crawled.size ≤ 500 → (crawlLoop disabledLinks web s).crawled.size ≤ 500) ∧
    (∀ (disabledLinks : List String) (web : String → Option Document)
        (resultTxt0 : Option String),
      (runCrawl disabledLinks web resultTxt0).crawled.size ≤ 500) := by
  refine ⟨?_, crawlLoop_size_le, ?_⟩
  · intro d w s h
    unfold crawlLoop
    cases hf : (500 - s.crawled.size).toNat with
    | zero => rfl
    | succ n => simp [crawlLoopAux, h]
  · intro d w f0
    unfold runCrawl
    cases hw : w host with
    | none =>
      apply crawlLoop_size_le
      simp [CrawledSet.size, CrawledSet.add, emptyCrawled]
    | some doc =>
      apply crawlLoop_size_le
      simp [CrawledSet.size, CrawledSet.add, emptyCrawled]

/-- Claim C6, witness: the loop applied to a stopped configuration and to a
concrete state below the ceiling. -/
theorem claim6_witness :
    crawlLoop [] (fun _ => none)
        { queue := initialQueue, crawled := emptyCrawled, resultTxt := none, fetched := [] } =
      { queue := initialQueue, crawled := emptyCrawled, resultTxt := none, fetched := [] } ∧
    (crawlLoop [] (fun _ => none)
        { queue := initialQueue, crawled := emptyCrawled, resultTxt := none,
          fetched := [] }).crawled.size ≤ 500 :=
  ⟨claim6_ceiling.1 [] (fun _ => none)
      { queue := initialQueue, crawled := emptyCrawled, resultTxt := none, fetched := [] }
      (by decide),
   claim6_ceiling.2.1 [] (fun _ => none)
      { queue := initialQueue, crawled := emptyCrawled, resultTxt := none, fetched := [] }
      (by decide)⟩

/-- Claim C1, counterexample to the claim as stated: on a web where the seed
page links to `/u` twice, the Draining loop dequeues and fetches
`https://www.sjsu.edu/u` twice — its fingerprint is added to the visited set
at the first dequeue, but the second queued copy (admitted while the URL was
still unvisited) is dequeued and fetched anyway. The fetch trace is the seed
followed by the same URL twice. -/
theorem claim1_counterexample :
    (runCrawl [] exWeb (some "")).fetched =
      ["https://www.sjsu.edu/", "https://www.sjsu.edu/u", "https://www.sjsu.edu/u"] := by
  decide

/-- Claim C1 (amended): link admission checks the visited set only at
enqueue time while marking happens at dequeue time, and that does NOT keep a
URL from entering the fetch pipeline twice (see the counterexample: a URL
discovered twice before its first dequeue is fetched twice). What does hold:
once a URL's fingerprint is in the visited set, the extractor never enqueues
that URL again, so no third fetch of it can ever be admitted after its first
dequeue. -/
theorem claim1_no_reenqueue_after_visit :
    ∀ (disabledLinks : List String) (crawledSet : CrawledSet) (href u : String),
      crawledSet.contains u = true →
      processHref disabledLinks crawledSet href ≠ some u := by
  intro d c href u hc hsome
  have h := processHref_some d c href u hsome
  rw [hc] at h
  simp at h

/-- Claim C1, witness: after `https://www.sjsu.edu/u` is marked visited, the
href `/u` (which rewrites to that URL) is no longer admitted. -/
theorem claim1_witness :
    processHref [] (emptyCrawled.add "https://www.sjsu.edu/u") "/u" ≠
      some "https://www.sjsu.edu/u" :=
  claim1_no_reenqueue_after_visit [] (emptyCrawled.add "https://www.sjsu.edu/u") "/u"
    "https://www.sjsu.edu/u" (by decide)

end WebCrawler
